import Mathlib

/-!
Shallow embedding of the configuration-expansion logic of
`irit_rst_dt/local.py` (the `irit-rst-dt` experimental harness
configuration), together with theorems checking the specified
properties of that logic.

The module declares experiment variants (learners, decoders,
intra/inter-sentential settings), combines them into evaluation
configurations with deterministic hyphen-joined keys, filters out
junk combinations, and prints the result.  Pure Python functions
are translated to Lean functions; Python exceptions are translated
to `Except String`; dynamically-typed values (enum fields that may
hold out-of-range values, heterogeneous argument lists) are
translated to inductive types with an extra constructor for the
out-of-range case.
-/

/-! ## String helpers

Python substring and membership tests (`needle in hay`) used by
`_core_settings` (line 303: `'oracle' in klearner.key`). -/

/-- Boolean test that `hay` begins with `needle` (lists of characters). -/
def strBeginsWith : List Char → List Char → Bool
  | _, [] => true
  | [], _ :: _ => false
  | h :: hs, n :: ns => decide (h = n) && strBeginsWith hs ns

/-- Boolean test that `needle` occurs contiguously somewhere in `hay`. -/
def hasSub : List Char → List Char → Bool
  | [], needle => strBeginsWith [] needle
  | h :: t, needle => strBeginsWith (h :: t) needle || hasSub t needle

/-- Embedding of the Python membership test `needle in hay` on strings. -/
def pyIn (needle hay : String) : Bool :=
  hasSub hay.toList needle.toList

/-! ## Keys and `combined_key`

`combined_key(*variants)` (local.py lines 144-148) joins, with the
separator `"-"`, each variant itself when it is a string and the
variant's `key` attribute otherwise.  At every call site except
line 426 the arguments are strings or objects exposing a `key`
attribute; `KeyedArg` captures exactly these two shapes. -/

/-- Argument shape accepted by `combined_key`: either a plain string, or
an object exposing a `key` attribute (we keep only the attribute). -/
inductive KeyedArg where
  | str (s : String)
  | obj (key : String)
deriving DecidableEq

/-- The string `combined_key` extracts from one variant: the string
itself, or the object's `key` attribute. -/
def KeyedArg.keyOf : KeyedArg → String
  | .str s => s
  | .obj k => k

/-- Embedding of `combined_key` (local.py lines 144-148):
join with `'-'` the key of each variant, in input order. -/
def combined_key (variants : List KeyedArg) : String :=
  String.intercalate "-" (variants.map KeyedArg.keyOf)

/-- A payload tagged with a short identifying key
(`attelo.harness.config.Keyed`). -/
structure Keyed (α : Type) where
  key : String
  payload : α

/-- An attachment classifier as far as this module observes it: the
underlying algorithm (opaque tag) and whether its scores are
probability estimates (`can_predict_proba`, read by `_is_junk`). -/
structure AttachClassifier where
  alg : String
  can_predict_proba : Bool

/-- A labelling classifier (opaque to this module beyond its key). -/
structure LabelClassifier where
  alg : String

/-- Pairing of an attachment learner and a labelling learner
(`attelo.harness.config.LearnerConfig`), with its derived key. -/
structure LearnerConfig where
  attach : Keyed AttachClassifier
  label : Keyed LabelClassifier
  key : String

/-- Decoders instantiated by this module.  Constructor arguments of the
underlying attelo decoder objects (thresholds, root strategies) are
opaque to the configuration logic and omitted.  `tc` wraps a decoder in
its tree-constrained variant. -/
inductive Decoder where
  | localBaseline
  | mstDecoder
  | tc (d : Decoder)
deriving DecidableEq

/-- A full parser pipeline built by `mk_joint` / `mk_post`
(`attelo.parser.full.JointPipeline` / `PostlabelPipeline`). -/
inductive Pipeline where
  | jointPipeline (attach : AttachClassifier) (label : LabelClassifier) (decoder : Decoder)
  | postlabelPipeline (attach : AttachClassifier) (label : LabelClassifier) (decoder : Decoder)

/-- The settings namedtuple declared in local.py lines 122-123:
`Settings = namedtuple('Settings', ['key', 'intra', 'oracle', 'children'])`.
`children` may nest further settings, so the type is recursive. -/
inductive Settings where
  | mk (key : String) (intra : Bool) (oracle : Bool) (children : Option (List Settings))

/-- Accessor for the `key` field of `Settings`. -/
def Settings.key : Settings → String
  | .mk k _ _ _ => k

/-- Accessor for the `intra` field of `Settings`. -/
def Settings.intra : Settings → Bool
  | .mk _ i _ _ => i

/-- Accessor for the `oracle` field of `Settings`. -/
def Settings.oracle : Settings → Bool
  | .mk _ _ o _ => o

/-- Accessor for the `children` field of `Settings`. -/
def Settings.children : Settings → Option (List Settings)
  | .mk _ _ _ c => c

/-- One fully resolved experiment
(`attelo.harness.config.EvaluationConfig`). -/
structure EvaluationConfig where
  key : String
  settings : Settings
  learner : LearnerConfig
  parser : Keyed Pipeline

/-- Embedding of `_core_settings` (lines 299-304): settings for basic
pipelines; `oracle` is the Python substring test
`'oracle' in klearner.key`. -/
def _core_settings (key : String) (klearner : LearnerConfig) : Settings :=
  Settings.mk key false (pyIn "oracle" klearner.key) none

/-- Embedding of `mk_joint` (lines 306-317): a joint decoding parser
configuration.  `parser_key = combined_key(settings, kdecoder)` joins
two objects exposing keys; `key = combined_key(klearner, parser_key)`
joins an object and a plain string. -/
def mk_joint (klearner : LearnerConfig) (kdecoder : Keyed Decoder) : EvaluationConfig :=
  let settings := _core_settings "AD.L-jnt" klearner
  let parser_key := combined_key [KeyedArg.obj settings.key, KeyedArg.obj kdecoder.key]
  let key := combined_key [KeyedArg.obj klearner.key, KeyedArg.str parser_key]
  let parser := Pipeline.jointPipeline klearner.attach.payload klearner.label.payload
    kdecoder.payload
  ⟨key, settings, klearner, ⟨parser_key, parser⟩⟩

/-- Embedding of `mk_post` (lines 320-331): a post-label parser
configuration. -/
def mk_post (klearner : LearnerConfig) (kdecoder : Keyed Decoder) : EvaluationConfig :=
  let settings := _core_settings "AD.L-pst" klearner
  let parser_key := combined_key [KeyedArg.obj settings.key, KeyedArg.obj kdecoder.key]
  let key := combined_key [KeyedArg.obj klearner.key, KeyedArg.str parser_key]
  let parser := Pipeline.postlabelPipeline klearner.attach.payload klearner.label.payload
    kdecoder.payload
  ⟨key, settings, klearner, ⟨parser_key, parser⟩⟩

/-- The key-building operation as the spec words it (section 4.1,
operation 1): a single string formed by joining each component's key
with the fixed delimiter `-`, preserving input order; stated on a
non-empty component list as head plus tail. -/
def build_key_spec : KeyedArg → List KeyedArg → String
  | c, [] => c.keyOf
  | c, c2 :: cs => c.keyOf ++ "-" ++ build_key_spec c2 cs

/-! ## Concrete inputs used by the witnesses -/

/-- Characterisation of `strBeginsWith`: the haystack begins with the
needle exactly when it is the needle followed by some remainder. -/
theorem strBeginsWith_iff (needle : List Char) :
    ∀ hay, strBeginsWith hay needle = true ↔ ∃ suf, hay = needle ++ suf := by
  induction needle with
  | nil =>
    intro hay
    simp [strBeginsWith]
  | cons n ns ih =>
    intro hay
    cases hay with
    | nil => simp [strBeginsWith]
    | cons h hs =>
      simp only [strBeginsWith, Bool.and_eq_true, decide_eq_true_eq, ih hs]
      constructor
      · rintro ⟨rfl, suf, rfl⟩
        exact ⟨suf, rfl⟩
      · rintro ⟨suf, hh⟩
        rw [List.cons_append] at hh
        cases hh
        exact ⟨rfl, suf, rfl⟩

/-- Characterisation of `hasSub`: the needle occurs in the haystack
exactly when the haystack splits around it. -/
theorem hasSub_iff (needle : List Char) :
    ∀ hay, hasSub hay needle = true ↔ ∃ pre suf, hay = pre ++ (needle ++ suf) := by
  intro hay
  induction hay with
  | nil =>
    simp only [hasSub, strBeginsWith_iff]
    constructor
    · rintro ⟨suf, h⟩
      exact ⟨[], suf, h⟩
    · rintro ⟨pre, suf, h⟩
      rcases List.append_eq_nil.mp h.symm with ⟨h1, h2⟩
      exact ⟨suf, by rw [h1] at h; simpa using h⟩
  | cons c t ih =>
    simp only [hasSub, Bool.or_eq_true, strBeginsWith_iff, ih]
    constructor
    · rintro (⟨suf, h⟩ | ⟨pre, suf, h⟩)
      · exact ⟨[], suf, by simpa using h⟩
      · exact ⟨c :: pre, suf, by simp [h]⟩
    · rintro ⟨pre, suf, h⟩
      cases pre with
      | nil => exact Or.inl ⟨suf, by simpa using h⟩
      | cons p ps =>
        rw [List.cons_append] at h
        cases h
        exact Or.inr ⟨ps, suf, rfl⟩

/-- Characterisation of the Python membership test on strings. -/
theorem pyIn_iff (needle hay : String) :
    pyIn needle hay = true ↔ ∃ pre suf, hay.toList = pre ++ (needle.toList ++ suf) :=
  hasSub_iff needle.toList hay.toList

/-- The accumulator of `String.intercalate.go` distributes over string
concatenation. -/
theorem go_append (s : String) : ∀ (t : List String) (x y : String),
    String.intercalate.go (x ++ y) s t = x ++ String.intercalate.go y s t := by
  intro t
  induction t with
  | nil => intro x y; rfl
  | cons a as ih =>
    intro x y
    show String.intercalate.go (x ++ y ++ s ++ a) s as =
      x ++ String.intercalate.go (y ++ s ++ a) s as
    have h : x ++ y ++ s ++ a = x ++ (y ++ s ++ a) := by
      simp [String.append_assoc]
    rw [h, ih x (y ++ s ++ a)]

/-- Unfolding of `String.intercalate` on a list of two or more
strings. -/
theorem intercalate_cons_cons (s a b : String) (t : List String) :
    String.intercalate s (a :: b :: t) = a ++ s ++ String.intercalate s (b :: t) := by
  show String.intercalate.go a s (b :: t) = a ++ s ++ String.intercalate.go b s t
  show String.intercalate.go (a ++ s ++ b) s t = _
  rw [show a ++ s ++ b = (a ++ s) ++ b from rfl, go_append]

/-! ## Claim theorems -/

/-- C6: for every non-empty sequence of components, each a plain
string or an object exposing a key, `combined_key` returns the single
string formed by joining each component's key (or the string itself)
with the delimiter `-`, preserving the input order of the components:
it refines the spec's `build_key` recursion. -/
theorem C6_combined_key_refines_spec (c : KeyedArg) (cs : List KeyedArg) :
    combined_key (c :: cs) = build_key_spec c cs := by
  induction cs generalizing c with
  | nil => rfl
  | cons c2 cs2 ih =>
    show String.intercalate "-" (c.keyOf :: c2.keyOf :: cs2.map KeyedArg.keyOf) = _
    rw [intercalate_cons_cons]
    show c.keyOf ++ "-" ++ combined_key (c2 :: cs2) = _
    rw [ih c2]
    rfl

/-- C10: every `EvaluationConfig` produced by `mk_joint` or `mk_post`
has settings with `intra` false and `children` none, and its
`settings.oracle` flag is true exactly when the string `oracle` occurs
as a contiguous substring of the learner's key. -/
theorem C10_core_settings_invariant (klearner : LearnerConfig) (kdecoder : Keyed Decoder) :
    ((mk_joint klearner kdecoder).settings.intra = false ∧
      (mk_joint klearner kdecoder).settings.children = none ∧
      ((mk_joint klearner kdecoder).settings.oracle = true ↔
        ∃ pre suf, klearner.key.toList = pre ++ ("oracle".toList ++ suf))) ∧
    ((mk_post klearner kdecoder).settings.intra = false ∧
      (mk_post klearner kdecoder).settings.children = none ∧
      ((mk_post klearner kdecoder).settings.oracle = true ↔
        ∃ pre suf, klearner.key.toList = pre ++ ("oracle".toList ++ suf))) := by
  refine ⟨⟨rfl, rfl, ?_⟩, ⟨rfl, rfl, ?_⟩⟩ <;>
    exact pyIn_iff "oracle" klearner.key
